import Mathlib

/-!
Verification of the multi-tier file cache (`Cache.py`).

The Python source is shallowly embedded.  The `OrderedDict`-based RAM
cache becomes an association list kept in recency order (head =
least-recently-used, tail = most-recently-used).  Readings of the
environment (`psutil.virtual_memory().available`,
`psutil.disk_usage(...)`) are external inputs of the program and become
explicit parameters of the operations that perform them.  Filesystem
state becomes an association list from paths to entries, I/O failures
become explicit failure plans / oracles, and exceptions that propagate
out of a method become `Except.error`.  Floating-point arithmetic on
byte counts is modelled over `ℚ`, with Python `int()` truncation made
explicit.
-/

/-- Raw byte payloads (`bytes` in Python); the stored size of a payload
is its length. -/
abbrev Bytes := List Nat

/-- Association-list lookup, first binding wins: the model of Python
dict / `OrderedDict` lookup. -/
def alookup {α : Type} : List (String × α) → String → Option α
  | [], _ => none
  | (k, v) :: t, p => if k = p then some v else alookup t p

/-- Python `d[k] = v`: replace the value in place if the key is bound,
otherwise append a fresh binding at the end (insertion order). -/
def odSet {α : Type} : List (String × α) → String → α → List (String × α)
  | [], p, d => [(p, d)]
  | (k, v) :: t, p, d => if k = p then (k, d) :: t else (k, v) :: odSet t p d

/-- Python `del d[k]`: drop the first binding of `k` (no-op when the key
is absent; the source only deletes present keys). -/
def odErase {α : Type} : List (String × α) → String → List (String × α)
  | [], _ => []
  | (k, v) :: t, p => if k = p then t else (k, v) :: odErase t p

/-- `OrderedDict.move_to_end(k)`: move the binding of `k` to the
most-recently-used end (the source only calls it on present keys). -/
def odMove {α : Type} (p : String) (l : List (String × α)) : List (String × α) :=
  match alookup l p with
  | none => l
  | some v => odErase l p ++ [(p, v)]

/-- `sum(len(data) for data in self.cache.values())`: the aggregate
stored payload size. -/
def curSize (l : List (String × Bytes)) : Nat :=
  (l.map fun kv => kv.2.length).sum

/-- The `RAMCache` object: the entry list in recency order plus the
`max_size` field.  `max_size` is set from an external reading of
available RAM (`int(mem.available * 0.9)`), which the operations below
take as a parameter wherever the source recomputes it. -/
structure RAMCache where
  cache : List (String × Bytes)
  max_size : Nat
  deriving DecidableEq

/-- The `while` loop of `RAMCache.trim_cache`: while the aggregate size
exceeds `m` and the cache is non-empty, pop the least-recently-used
(front) entry. -/
def trim_go (m : Nat) : List (String × Bytes) → List (String × Bytes)
  | [] => []
  | x :: t => if curSize (x :: t) ≤ m then x :: t else trim_go m t

/-- `RAMCache.trim_cache`. -/
def RAMCache.trim_cache (s : RAMCache) : RAMCache :=
  ⟨trim_go s.max_size s.cache, s.max_size⟩

/-- `RAMCache.update_max_size`, with the fresh reading of
`int(mem.available * 0.9)` passed in as `newMax`: store the new maximum
then trim. -/
def RAMCache.update_max_size (s : RAMCache) (newMax : Nat) : RAMCache :=
  RAMCache.trim_cache ⟨s.cache, newMax⟩

/-- `RAMCache.add`: recompute `max_size` (trimming as a side effect of
`update_max_size`), reject a payload larger than the fresh maximum,
otherwise trim again, bind the key and move it to the
most-recently-used end.  Returns the Python boolean result together
with the resulting state. -/
def RAMCache.add (s : RAMCache) (newMax : Nat) (p : String) (d : Bytes) :
    Bool × RAMCache :=
  let s1 := s.update_max_size newMax
  if d.length > s1.max_size then (false, s1)
  else
    let s2 := s1.trim_cache
    (true, ⟨odMove p (odSet s2.cache p d), s2.max_size⟩)

/-- `RAMCache.get`: on a hit, move the key to the most-recently-used
end and return its payload; on a miss return `None` and leave the state
unchanged. -/
def RAMCache.get (s : RAMCache) (p : String) : Option Bytes × RAMCache :=
  match alookup s.cache p with
  | some v => (some v, ⟨odMove p s.cache, s.max_size⟩)
  | none => (none, s)

/-- `RAMCache.remove`: delete the binding when present, no-op
otherwise. -/
def RAMCache.remove (s : RAMCache) (p : String) : RAMCache :=
  ⟨odErase s.cache p, s.max_size⟩

/-! Basic lemmas about the `OrderedDict` model. -/

theorem curSize_trim_go_le (m : Nat) (l : List (String × Bytes)) :
    curSize (trim_go m l) ≤ m := by
  induction l with
  | nil => simp [trim_go, curSize]
  | cons x t ih =>
      by_cases h : curSize (x :: t) ≤ m
      · simp [trim_go, h]
      · simpa [trim_go, h] using ih

theorem trim_go_of_le {m : Nat} {l : List (String × Bytes)}
    (h : curSize l ≤ m) : trim_go m l = l := by
  cases l with
  | nil => rfl
  | cons x t => simp [trim_go, h]

theorem trim_go_drop (m : Nat) (l : List (String × Bytes)) :
    ∃ n, trim_go m l = l.drop n := by
  induction l with
  | nil => exact ⟨0, rfl⟩
  | cons x t ih =>
      by_cases h : curSize (x :: t) ≤ m
      · exact ⟨0, by simp [trim_go, h]⟩
      · obtain ⟨n, hn⟩ := ih
        exact ⟨n + 1, by simp [trim_go, h, hn]⟩

theorem alookup_drop_none {α : Type} {l : List (String × α)} {k : String}
    (h : alookup l k = none) (n : Nat) : alookup (l.drop n) k = none := by
  induction n generalizing l with
  | zero => simp [h]
  | succ n ih =>
      cases l with
      | nil => simp [alookup]
      | cons x t =>
          rw [alookup] at h
          by_cases hx : x.1 = k
          · simp [hx] at h
          · exact ih (by simpa [hx] using h)

theorem curSize_append (l₁ l₂ : List (String × Bytes)) :
    curSize (l₁ ++ l₂) = curSize l₁ + curSize l₂ := by
  simp [curSize]

theorem curSize_odErase_le {α : String} (l : List (String × Bytes)) :
    curSize (odErase l α) ≤ curSize l := by
  induction l with
  | nil => simp [odErase]
  | cons x t ih =>
      by_cases h : x.1 = α
      · simp [odErase, h, curSize]
      · simp only [odErase, h, if_false, curSize, List.map_cons, List.sum_cons]
        exact Nat.add_le_add_left ih _

theorem curSize_odErase_add {l : List (String × Bytes)} {k : String} {v : Bytes}
    (h : alookup l k = some v) :
    curSize (odErase l k) + v.length = curSize l := by
  induction l with
  | nil => simp [alookup] at h
  | cons x t ih =>
      rw [alookup] at h
      by_cases hx : x.1 = k
      · simp only [hx, if_true, Option.some.injEq] at h
        subst h
        simp [odErase, hx, curSize, Nat.add_comm]
      · have := ih (by simpa [hx] using h)
        simp only [odErase, hx, if_false, curSize, List.map_cons, List.sum_cons] at *
        omega

theorem curSize_odMove (p : String) (l : List (String × Bytes)) :
    curSize (odMove p l) = curSize l := by
  unfold odMove
  cases h : alookup l p with
  | none => rfl
  | some v =>
      rw [curSize_append]
      have h2 := curSize_odErase_add h
      have h3 : curSize [(p, v)] = v.length := by simp [curSize]
      omega

theorem alookup_odSet_self {α : Type} (l : List (String × α)) (p : String) (d : α) :
    alookup (odSet l p d) p = some d := by
  induction l with
  | nil => simp [odSet, alookup]
  | cons x t ih =>
      by_cases h : x.1 = p
      · simp [odSet, h, alookup]
      · simp [odSet, h, alookup, ih]

theorem odErase_odSet (l : List (String × α)) (p : String) (d : α) :
    odErase (odSet l p d) p = odErase l p := by
  induction l with
  | nil => simp [odSet, odErase]
  | cons x t ih =>
      by_cases h : x.1 = p
      · simp [odSet, h, odErase]
      · simp [odSet, h, odErase, ih]

theorem odMove_odSet (l : List (String × α)) (p : String) (d : α) :
    odMove p (odSet l p d) = odErase l p ++ [(p, d)] := by
  unfold odMove
  rw [alookup_odSet_self, odErase_odSet]

theorem update_max_size_max (s : RAMCache) (m : Nat) :
    (s.update_max_size m).max_size = m := rfl

theorem update_max_size_cache (s : RAMCache) (m : Nat) :
    (s.update_max_size m).cache = trim_go m s.cache := rfl

theorem not_mem_keys_odErase {α : Type} {l : List (String × α)} {k : String}
    (h : (l.map Prod.fst).Nodup) : k ∉ (odErase l k).map Prod.fst := by
  induction l with
  | nil => simp [odErase]
  | cons x t ih =>
      obtain ⟨a, b⟩ := x
      rw [List.map_cons, List.nodup_cons] at h
      by_cases hx : a = k
      · intro hmem
        rw [odErase, if_pos hx] at hmem
        exact h.1 (hx ▸ hmem)
      · intro hmem
        rw [odErase, if_neg hx, List.map_cons] at hmem
        rcases List.mem_cons.mp hmem with he | hmem2
        · exact hx he.symm
        · exact ih h.2 hmem2

theorem keys_drop_nodup {α : Type} {l : List (String × α)}
    (h : (l.map Prod.fst).Nodup) (n : Nat) :
    ((l.drop n).map Prod.fst).Nodup :=
  h.sublist ((List.drop_sublist n l).map Prod.fst)

/-! ### Claim theorems about the RAM tier -/

/-- C1 counterexample: the invariant "aggregate stored size ≤ capacity
after every operation" fails on the code.  With capacity 10, adding a
6-byte payload and then a 5-byte payload leaves 11 bytes stored: `add`
trims before inserting without accounting for the incoming payload, so
the aggregate exceeds the capacity after the second `add` returns. -/
theorem ramTier_size_invariant_cex :
    let s0 : RAMCache := ⟨[], 10⟩
    let s1 := (s0.add 10 "a" (List.replicate 6 0)).2
    let s2 := (s1.add 10 "b" (List.replicate 5 0)).2
    curSize s2.cache > s2.max_size := by decide

/-- C1 (amended): after `trim_cache` and `update_max_size` the
aggregate stored size is at most the (current resp. fresh) capacity;
`remove` and `get` preserve the invariant; after `add` the aggregate is
at most the fresh capacity plus the size of the payload just added (the
excess is reclaimed only by the next trim). -/
theorem ramTier_size_bounds (s : RAMCache) (m : Nat) (k : String) (d : Bytes) :
    curSize s.trim_cache.cache ≤ s.trim_cache.max_size
    ∧ curSize (s.update_max_size m).cache ≤ (s.update_max_size m).max_size
    ∧ (curSize s.cache ≤ s.max_size →
        curSize (s.remove k).cache ≤ (s.remove k).max_size)
    ∧ (curSize s.cache ≤ s.max_size →
        curSize ((s.get k).2).cache ≤ ((s.get k).2).max_size)
    ∧ ((s.add m k d).2).max_size = m
    ∧ curSize ((s.add m k d).2).cache ≤ m + d.length := by
  refine ⟨curSize_trim_go_le _ _, curSize_trim_go_le _ _, ?_, ?_, ?_, ?_⟩
  · intro h
    exact le_trans (curSize_odErase_le s.cache) h
  · intro h
    unfold RAMCache.get
    cases hl : alookup s.cache k with
    | none => exact h
    | some v => simpa [curSize_odMove] using h
  · unfold RAMCache.add
    by_cases hbig : d.length > (s.update_max_size m).max_size <;>
      simp [hbig] <;> rfl
  · unfold RAMCache.add
    by_cases hbig : d.length > (s.update_max_size m).max_size
    · simp only [hbig, if_true]
      exact le_trans (curSize_trim_go_le _ _) (Nat.le_add_right _ _)
    · simp only [hbig, if_false]
      rw [odMove_odSet, curSize_append]
      have h1 : curSize (odErase ((s.update_max_size m).trim_cache).cache k) ≤ m := by
        refine le_trans (curSize_odErase_le _) ?_
        exact curSize_trim_go_le _ _
      have h2 : curSize [(k, d)] = d.length := by simp [curSize]
      omega

/-- C1 witness for the hypotheses of `ramTier_size_bounds`. -/
theorem ramTier_size_bounds_witness :
    curSize ((RAMCache.mk [("x", [1, 2])] 5).remove "x").cache
      ≤ ((RAMCache.mk [("x", [1, 2])] 5).remove "x").max_size
    ∧ curSize (((RAMCache.mk [("x", [1, 2])] 5).get "x").2).cache
      ≤ (((RAMCache.mk [("x", [1, 2])] 5).get "x").2).max_size := by
  have h := ramTier_size_bounds (RAMCache.mk [("x", [1, 2])] 5) 5 "x" [9]
  exact ⟨h.2.2.1 (by decide), h.2.2.2.1 (by decide)⟩

set_option maxRecDepth 40000 in
/-- C2 counterexample: with capacity fixed at 1000, `add("a", 600 bytes)`
then `add("b", 500 bytes)` does NOT evict `"a"`: both entries remain
present after the second `add` returns, because `trim_cache` runs before
the insertion and only compares the already-stored 600 bytes against
the capacity. -/
theorem lru_scenario_cex :
    let s0 : RAMCache := ⟨[], 1000⟩
    let s1 := (s0.add 1000 "a" (List.replicate 600 0)).2
    let s2 := (s1.add 1000 "b" (List.replicate 500 0)).2
    (alookup s2.cache "a").isSome = true := by decide

set_option maxRecDepth 40000 in
/-- C2 (amended): with capacity fixed at 1000 both adds succeed and both
entries stay present (1100 bytes stored, exceeding the capacity); `"a"`
is evicted only by the next trim at capacity 1000, which then leaves
`"b"` as the only entry. -/
theorem lru_scenario_amended :
    let s0 : RAMCache := ⟨[], 1000⟩
    let r1 := s0.add 1000 "a" (List.replicate 600 0)
    let r2 := r1.2.add 1000 "b" (List.replicate 500 0)
    r1.1 = true ∧ r2.1 = true
    ∧ r2.2.cache = [("a", List.replicate 600 0), ("b", List.replicate 500 0)]
    ∧ curSize r2.2.cache = 1100
    ∧ r2.2.trim_cache.cache = [("b", List.replicate 500 0)] := by decide

/-- C3 counterexample: an oversize `add` is not free of side effects.
With a 10-byte entry stored and the freshly recomputed capacity equal
to 5, `add` of a 6-byte payload returns failure, but the capacity
recomputation it performs first (`update_max_size`) has already trimmed
the stored entry away: the entry set changed although the call failed. -/
theorem add_oversize_cex :
    let s : RAMCache := ⟨[("x", List.replicate 10 0)], 100⟩
    let r := s.add 5 "y" (List.replicate 6 0)
    r.1 = false ∧ r.2.cache = [] ∧ s.cache ≠ [] := by decide

/-- C3 (amended): when the payload exceeds the freshly recomputed
capacity, `add` returns failure without throwing and without inserting
the key, and the only mutation is the one performed by the capacity
recomputation itself: the state after the call is exactly
`update_max_size`'s result, whose entry list is a least-recently-used
suffix drop of the previous entry list. -/
theorem add_oversize_amended (s : RAMCache) (newMax : Nat) (k : String)
    (d : Bytes) (hover : d.length > newMax) :
    (s.add newMax k d).1 = false
    ∧ (s.add newMax k d).2 = s.update_max_size newMax
    ∧ (∃ n, (s.add newMax k d).2.cache = s.cache.drop n)
    ∧ (alookup s.cache k = none →
        alookup ((s.add newMax k d).2).cache k = none) := by
  have hmax : (s.update_max_size newMax).max_size = newMax := rfl
  have hadd : s.add newMax k d = (false, s.update_max_size newMax) := by
    unfold RAMCache.add
    simp [hmax, hover]
  refine ⟨by rw [hadd], by rw [hadd], ?_, ?_⟩
  · rw [hadd, update_max_size_cache]
    exact trim_go_drop newMax s.cache
  · intro hnone
    rw [hadd, update_max_size_cache]
    obtain ⟨n, hn⟩ := trim_go_drop newMax s.cache
    rw [hn]
    exact alookup_drop_none hnone n

/-- C3 witness for the hypothesis of `add_oversize_amended`. -/
theorem add_oversize_amended_witness :
    ((RAMCache.mk [("x", [0, 0])] 9).add 1 "y" [5, 6]).1 = false
    ∧ ((RAMCache.mk [("x", [0, 0])] 9).add 1 "y" [5, 6]).2
        = (RAMCache.mk [("x", [0, 0])] 9).update_max_size 1
    ∧ (∃ n, ((RAMCache.mk [("x", [0, 0])] 9).add 1 "y" [5, 6]).2.cache
        = [("x", [0, 0])].drop n)
    ∧ (alookup [("x", ([0, 0] : Bytes))] "y" = none →
        alookup (((RAMCache.mk [("x", [0, 0])] 9).add 1 "y" [5, 6]).2).cache "y"
          = none) := by
  have h := add_oversize_amended (RAMCache.mk [("x", [0, 0])] 9) 1 "y" [5, 6]
    (by decide)
  exact ⟨h.1, h.2.1, h.2.2.1, fun _ => h.2.2.2 (by decide)⟩

/-- C10: for a key already present, a successful `add` leaves exactly
one entry for that key, holding the new payload, at the
most-recently-used end, and only the new payload's size counts toward
the aggregate stored size. -/
theorem add_overwrite (s : RAMCache) (m : Nat) (k : String) (d v : Bytes)
    (hnd : (s.cache.map Prod.fst).Nodup) (_hv : alookup s.cache k = some v)
    (hsucc : (s.add m k d).1 = true) :
    ∃ rest, (s.add m k d).2.cache = rest ++ [(k, d)]
      ∧ k ∉ rest.map Prod.fst
      ∧ curSize ((s.add m k d).2.cache) = curSize rest + d.length := by
  by_cases hbig : d.length > (s.update_max_size m).max_size
  · exfalso
    unfold RAMCache.add at hsucc
    simp [hbig] at hsucc
  · have hadd : (s.add m k d).2.cache
        = odErase ((s.update_max_size m).trim_cache).cache k ++ [(k, d)] := by
      unfold RAMCache.add
      simp only [hbig, if_false]
      exact odMove_odSet _ _ _
    refine ⟨odErase ((s.update_max_size m).trim_cache).cache k, hadd, ?_, ?_⟩
    · have htrim : ((s.update_max_size m).trim_cache).cache
          = trim_go m (trim_go m s.cache) := rfl
      obtain ⟨n1, hn1⟩ := trim_go_drop m s.cache
      obtain ⟨n2, hn2⟩ := trim_go_drop m (trim_go m s.cache)
      have hnd2 : (((s.update_max_size m).trim_cache).cache.map Prod.fst).Nodup := by
        rw [htrim, hn2, hn1, List.drop_drop]
        exact keys_drop_nodup hnd _
      exact not_mem_keys_odErase hnd2
    · rw [hadd, curSize_append]
      have : curSize [(k, d)] = d.length := by simp [curSize]
      omega

/-- C10 witness for the hypotheses of `add_overwrite`. -/
theorem add_overwrite_witness :
    ∃ rest, ((RAMCache.mk [("k", [7])] 10).add 10 "k" [1, 2]).2.cache
        = rest ++ [("k", [1, 2])]
      ∧ "k" ∉ rest.map Prod.fst
      ∧ curSize (((RAMCache.mk [("k", [7])] 10).add 10 "k" [1, 2]).2.cache)
        = curSize rest + 2 :=
  add_overwrite (RAMCache.mk [("k", [7])] 10) 10 "k" [1, 2] [7]
    (by decide) (by decide) (by decide)

/-! ### Budget controller (`set_initial_cache_size`, `adjust_cache_size`,
`has_space`).  Byte counts are integers in the source; the float
factors `0.1`, `0.8`, `0.05` and the configured `cache_percent` are
modelled as exact rationals, and Python `int()` truncation is made
explicit. -/

/-- Python `int()` truncation toward zero of a (rational-modelled)
float. -/
def pyInt (q : ℚ) : ℤ := if 0 ≤ q then ⌊q⌋ else -⌊-q⌋

/-- The proposed size computed by `adjust_cache_size` before clamping:
`int(free * 0.8)` under disk pressure (`free < total * 0.1`), otherwise
`int(free * cache_percent)`. -/
def proposed_size (free total : ℕ) (percent : ℚ) : ℤ :=
  if (free : ℚ) < (total : ℚ) * (1 / 10) then pyInt ((free : ℚ) * (8 / 10))
  else pyInt ((free : ℚ) * percent)

/-- `max(self.min_cache_bytes, min(self.max_cache_bytes, new_size))`. -/
def clamp_size (minB maxB : ℕ) (x : ℤ) : ℕ :=
  (max (minB : ℤ) (min (maxB : ℤ) x)).toNat

/-- The new budget value computed by `adjust_cache_size` from the disk
usage reading (its decision whether to adopt it and trigger `clean_cache`
is modelled separately on the full system state). -/
def adjust_size (free total : ℕ) (percent : ℚ) (minB maxB : ℕ) : ℕ :=
  clamp_size minB maxB (proposed_size free total percent)

/-- `has_space(file_size)`: the free space left after the file must
strictly exceed 5% of the total disk capacity, and the current cache
usage plus the file must fit in the active budget. -/
def has_space (free total cacheSize budget fileSize : ℕ) : Bool :=
  decide ((free : ℚ) - (fileSize : ℚ) > (total : ℚ) * (5 / 100))
    && decide (cacheSize + fileSize ≤ budget)

/-- C4: the adopted budget value always lies in `[min, max]` (when
`min ≤ max`), and under disk pressure (`free < 0.10 * total`) the
proposed value before clamping is `int(free * 0.8)` — independent of
the configured percent — while otherwise it is
`int(free * percent)`. -/
theorem computeDiskBudget_props (free total : ℕ) (percent : ℚ)
    (minB maxB : ℕ) (hmm : minB ≤ maxB) :
    (minB ≤ adjust_size free total percent minB maxB
      ∧ adjust_size free total percent minB maxB ≤ maxB)
    ∧ ((free : ℚ) < (total : ℚ) * (1 / 10) →
        proposed_size free total percent = pyInt ((free : ℚ) * (8 / 10))
        ∧ ∀ percentB : ℚ,
            proposed_size free total percentB
              = proposed_size free total percent)
    ∧ (¬ (free : ℚ) < (total : ℚ) * (1 / 10) →
        proposed_size free total percent = pyInt ((free : ℚ) * percent)) := by
  refine ⟨?_, ?_, ?_⟩
  · unfold adjust_size clamp_size
    set x := proposed_size free total percent with hx
    have h1 : (minB : ℤ) ≤ max (minB : ℤ) (min (maxB : ℤ) x) := le_max_left _ _
    have h2 : max (minB : ℤ) (min (maxB : ℤ) x) ≤ (maxB : ℤ) :=
      max_le (by exact_mod_cast hmm) (min_le_left _ _)
    omega
  · intro h
    refine ⟨?_, fun pb => ?_⟩
    · rw [proposed_size, if_pos h]
    · rw [proposed_size, if_pos h, proposed_size, if_pos h]
  · intro h
    rw [proposed_size, if_neg h]

/-- C4 witness for the hypotheses of `computeDiskBudget_props`. -/
theorem computeDiskBudget_witness :
    (10 ≤ adjust_size 50 1000 (1 / 2) 10 100
      ∧ adjust_size 50 1000 (1 / 2) 10 100 ≤ 100)
    ∧ proposed_size 50 1000 (1 / 2) = pyInt ((50 : ℚ) * (8 / 10))
    ∧ proposed_size 50 1000 (3 / 4) = proposed_size 50 1000 (1 / 2) := by
  have h := computeDiskBudget_props 50 1000 (1 / 2) 10 100 (by decide)
  have hlow : ((50 : ℕ) : ℚ) < ((1000 : ℕ) : ℚ) * (1 / 10) := by norm_num
  exact ⟨h.1, (h.2.1 hlow).1, (h.2.1 hlow).2 (3 / 4)⟩

/-- The free-space condition of C5 read literally from the spec: the
remaining free space must be AT LEAST 5% of the total capacity. -/
def hasSpaceSpec (free total cacheSize budget fileSize : ℕ) : Bool :=
  decide ((free : ℚ) - (fileSize : ℚ) ≥ (total : ℚ) * (5 / 100))
    && decide (cacheSize + fileSize ≤ budget)

/-- C5 counterexample: at the boundary the claim and the code disagree.
With total = 1000, free = 100 and a 50-byte file the remaining free
space equals exactly 5% of total: the claim's "at least 5%" reading
says there is space, but `has_space` uses a strict comparison and
returns false. -/
theorem has_space_cex :
    hasSpaceSpec 100 1000 0 1000 50 = true
    ∧ has_space 100 1000 0 1000 50 = false := by
  constructor
  · simp only [hasSpaceSpec]
    norm_num
  · simp only [has_space]
    norm_num

/-- C5 (amended): `hasSpace(size)` returns true iff the free space left
after the file STRICTLY exceeds 5% of the total disk capacity and the
current usage plus the file fits in the active budget. -/
theorem has_space_amended (free total cacheSize budget fileSize : ℕ) :
    has_space free total cacheSize budget fileSize = true ↔
      ((free : ℚ) - (fileSize : ℚ) > (total : ℚ) * (5 / 100)
        ∧ cacheSize + fileSize ≤ budget) := by
  simp [has_space]

/-! ### Filesystem, index and manager state -/

/-- A filesystem object: a regular file with content and last-access
time, or a symlink (the redirect placed at an origin path). -/
inductive FsEntry
  | file (content : Bytes) (atime : Nat)
  | link (target : String)
  deriving DecidableEq

/-- The filesystem: an association list from absolute paths to
entries. -/
abbrev Fs := List (String × FsEntry)

/-- Presence check (`Path.exists` / what `os.unlink` and `shutil.move`
require of their argument). -/
def fsExists (fs : Fs) (p : String) : Bool := (alookup fs p).isSome

/-- `open(p, 'rb').read()`: follow a redirect and return the content of
the regular file reached, `none` when the read raises. -/
def readBytes (fs : Fs) (p : String) : Option Bytes :=
  match alookup fs p with
  | some (.file c _) => some c
  | some (.link t) =>
      match alookup fs t with
      | some (.file c _) => some c
      | _ => none
  | none => none

/-- `Path(p).stat().st_size` (follows redirects). -/
def statSize (fs : Fs) (p : String) : Option Nat :=
  (readBytes fs p).map List.length

/-- `Path(p).stat().st_atime` (follows redirects). -/
def statAtime (fs : Fs) (p : String) : Option Nat :=
  match alookup fs p with
  | some (.file _ a) => some a
  | some (.link t) =>
      match alookup fs t with
      | some (.file _ a) => some a
      | _ => none
  | none => none

/-- `shutil.move(src, dst)`: the object at `src` ends up at `dst`,
replacing whatever was there (an existing destination file is
overwritten). -/
def fsMove (fs : Fs) (src dst : String) : Fs :=
  match alookup fs src with
  | some e => odSet (odErase fs src) dst e
  | none => fs

/-- The fixed environment of one call: the drive roots chosen by
`detect_drives` and the readings `psutil` returns while the call
runs. -/
structure Env where
  cacheRoot : String
  hddRoot : String
  free : Nat
  total : Nat
  availRam : Nat

/-- `self.cache_dir / file_path.relative_to(self.hdd_dir)`. -/
def destOf (env : Env) (p : String) : String :=
  env.cacheRoot ++ String.drop p env.hddRoot.length

/-- Whether a path lies under the fast-storage cache root (the
enumeration domain of `cache_dir.glob("**/*")`). -/
def inCacheDir (env : Env) (p : String) : Bool :=
  env.cacheRoot.data.isPrefixOf p.data

/-- `get_cache_size`: recursive sum of regular-file sizes under the
cache root. -/
def get_cache_size (env : Env) (fs : Fs) : Nat :=
  (fs.map (fun kv =>
    match kv.2 with
    | .file c _ => if inCacheDir env kv.1 then c.length else 0
    | .link _ => 0)).sum

/-- The mutable state of `AutoCacheManager`: the RAM tier, the
persisted index `cached_files`, the filesystem it manipulates, and the
budget fields. -/
structure Sys where
  ram : RAMCache
  cached_files : List (String × String)
  fs : Fs
  cache_size_bytes : Nat
  cache_percent : ℚ
  min_cache_bytes : Nat
  max_cache_bytes : Nat

/-- Which filesystem operations fail during an eviction pass: the
external nondeterminism of `clean_cache`. -/
structure CleanOracle where
  atimeFail : String → Bool
  unlinkFail : String → Bool
  moveFail : String → Bool

/-- The `key=lambda f: Path(f).stat().st_atime` readings taken by
`min`; `none` as soon as one `stat` raises. -/
def atimeList (fs : Fs) (o : CleanOracle) :
    List (String × String) → Option (List (String × Nat))
  | [] => some []
  | (k, _) :: t =>
      if o.atimeFail k then none
      else
        match statAtime fs k with
        | none => none
        | some a => (atimeList fs o t).map (fun r => (k, a) :: r)

/-- Python `min`: scan left to right keeping the first element of
strictly minimal measure. -/
def argminKey : (String × Nat) → List (String × Nat) → String
  | best, [] => best.1
  | best, x :: t => if x.2 < best.2 then argminKey x t else argminKey best t

/-- `min(self.cached_files.keys(), key=...)`; `none` models an
`OSError` escaping from a `stat` during the scan. -/
def selectOldest (fs : Fs) (o : CleanOracle) (idx : List (String × String)) :
    Option String :=
  match atimeList fs o idx with
  | none => none
  | some [] => none
  | some (x :: t) => some (argminKey x t)

theorem argminKey_mem (best : String × Nat) (l : List (String × Nat)) :
    argminKey best l ∈ best.1 :: l.map Prod.fst := by
  induction l generalizing best with
  | nil => simp [argminKey]
  | cons x t ih =>
      rw [argminKey]
      by_cases h : x.2 < best.2
      · rw [if_pos h]
        rcases List.mem_cons.mp (ih x) with he | hm
        · exact List.mem_cons.mpr (Or.inr (he ▸ List.mem_cons_self _ _))
        · exact List.mem_cons.mpr (Or.inr (List.mem_cons.mpr (Or.inr hm)))
      · rw [if_neg h]
        rcases List.mem_cons.mp (ih best) with he | hm
        · exact he ▸ List.mem_cons_self _ _
        · exact List.mem_cons.mpr (Or.inr (List.mem_cons.mpr (Or.inr hm)))

theorem atimeList_keys {fs : Fs} {o : CleanOracle}
    {idx : List (String × String)} {l : List (String × Nat)}
    (h : atimeList fs o idx = some l) : l.map Prod.fst = idx.map Prod.fst := by
  induction idx generalizing l with
  | nil =>
      rw [atimeList] at h
      cases h
      rfl
  | cons x t ih =>
      obtain ⟨k, v⟩ := x
      rw [atimeList] at h
      by_cases hf : o.atimeFail k
      · rw [if_pos hf] at h
        cases h
      · rw [if_neg hf] at h
        cases ha : statAtime fs k with
        | none => rw [ha] at h; cases h
        | some a =>
            rw [ha] at h
            cases hrest : atimeList fs o t with
            | none => rw [hrest] at h; cases h
            | some r =>
                rw [hrest] at h
                have hl : (k, a) :: r = l := by
                  simpa using h
                rw [← hl]
                simp [ih hrest]

theorem selectOldest_mem {fs : Fs} {o : CleanOracle}
    {idx : List (String × String)} {k : String}
    (h : selectOldest fs o idx = some k) : k ∈ idx.map Prod.fst := by
  rw [selectOldest] at h
  cases ha : atimeList fs o idx with
  | none => rw [ha] at h; cases h
  | some l =>
      rw [ha] at h
      cases l with
      | nil => cases h
      | cons x t =>
          simp only [Option.some.injEq] at h
          have := argminKey_mem x t
          rw [h] at this
          have hkeys := atimeList_keys ha
          rw [List.map_cons] at hkeys
          rw [← hkeys]
          exact this

theorem odErase_length_lt {α : Type} {l : List (String × α)} {k : String}
    (h : k ∈ l.map Prod.fst) : (odErase l k).length < l.length := by
  induction l with
  | nil => simp at h
  | cons x t ih =>
      rw [List.map_cons, List.mem_cons] at h
      by_cases hx : x.1 = k
      · simp [odErase, hx]
      · rcases h with he | hm
        · exact absurd he.symm hx
        · rw [odErase, if_neg hx]
          simpa using ih hm

/-- The eviction loop of `clean_cache`: while the measured usage
exceeds the budget and the index is non-empty, select the entry with
the oldest access time, remove the redirect, move the cache file back,
drop the index entry and re-measure.  A failing `unlink`/`move` is
caught by the `except` handler, which still drops the entry (and does
not re-measure).  A `stat` failure during selection makes the handler
itself raise — `oldest_file` is unbound on the first iteration and
names an already-deleted key on later ones — so the exception
propagates out.  `save_cache` catches its own `IOError` internally and
never changes the in-memory state. -/
def clean_go (env : Env) (o : CleanOracle) (S : Sys) (cur : Nat) :
    Except String Sys :=
  if cur > S.cache_size_bytes ∧ S.cached_files ≠ [] then
    match hsel : selectOldest S.fs o S.cached_files with
    | none => Except.error "unhandled error in eviction selection"
    | some oldest =>
      if o.unlinkFail oldest || !(fsExists S.fs oldest) then
        clean_go env o
          { S with cached_files := odErase S.cached_files oldest } cur
      else
        if o.moveFail oldest
            || !(fsExists (odErase S.fs oldest)
                  ((alookup S.cached_files oldest).getD "")) then
          clean_go env o
            { S with
              fs := odErase S.fs oldest,
              cached_files := odErase S.cached_files oldest } cur
        else
          clean_go env o
            { S with
              fs := fsMove (odErase S.fs oldest)
                ((alookup S.cached_files oldest).getD "") oldest,
              cached_files := odErase S.cached_files oldest }
            (get_cache_size env
              (fsMove (odErase S.fs oldest)
                ((alookup S.cached_files oldest).getD "") oldest))
  else Except.ok S
termination_by S.cached_files.length
decreasing_by
  all_goals exact odErase_length_lt (selectOldest_mem hsel)

/-- `clean_cache`: trim the RAM tier, measure the fast-disk usage, then
run the eviction loop. -/
def clean_cache (env : Env) (o : CleanOracle) (S : Sys) :
    Except String Sys :=
  clean_go env o { S with ram := S.ram.trim_cache } (get_cache_size env S.fs)

/-- `adjust_cache_size`: recompute the budget from the disk-usage
reading; adopt it and run `clean_cache` only when it differs from the
current budget by more than 1 GiB. -/
def adjust_cache_size (env : Env) (o : CleanOracle) (S : Sys) :
    Except String Sys :=
  let new_size := adjust_size env.free env.total S.cache_percent
    S.min_cache_bytes S.max_cache_bytes
  if ((new_size : ℤ) - (S.cache_size_bytes : ℤ)).natAbs > 1024 ^ 3 then
    clean_cache env o { S with cache_size_bytes := new_size }
  else Except.ok S

/-- Which steps of the migration `try` block fail, and how: the
external nondeterminism of one `cache_file` call.  For the copy,
`none` means success and `some leftover` a failure that leaves
`leftover` (nothing, or a partial file) at the destination. -/
structure MigPlan where
  readFail : Bool
  mkdirFail : Bool
  copyFail : Option (Option Bytes)
  removeFail : Bool
  symlinkFail : Bool
  rollbackMoveFail : Bool
  o : CleanOracle

/-- I/O events a `cache_file` call performs, for counting copies and
slow-storage accesses. -/
inductive Ev
  | ramHit | readFast | readSlow | copy | removeOrig | symlink | rollback
  deriving DecidableEq

/-- Number of copy operations to fast storage in an event trace. -/
def countCopies (evs : List Ev) : Nat :=
  (evs.filter fun e => e = Ev.copy).length

/-- Whether an event touches slow storage (reads, deletes, redirect
creation or move-back at the origin path). -/
def touchesSlow : Ev → Bool
  | Ev.readSlow => true
  | Ev.removeOrig => true
  | Ev.symlink => true
  | Ev.rollback => true
  | _ => false

/-- The `except` handler of `cache_file`: if something exists at the
destination, move it back over the origin path (this overwrites
whatever the origin currently holds); a failure of this move itself is
uncaught. -/
def rollbackStep (plan : MigPlan) (S : Sys) (path dest : String)
    (evs : List Ev) : Except String (Sys × List Ev) :=
  if fsExists S.fs dest then
    if plan.rollbackMoveFail then Except.error "rollback move failed"
    else Except.ok ({ S with fs := fsMove S.fs dest path }, evs ++ [Ev.rollback])
  else Except.ok (S, evs)

/-- The migration `try` block of `cache_file`: read the origin bytes,
opportunistically add them to the RAM tier, create the destination
directory, copy the file (preserving metadata, hence the access time),
delete the origin, create the redirect, record and persist the index
entry.  Any failing step jumps to `rollbackStep`. -/
def migrate (env : Env) (plan : MigPlan) (S : Sys) (path dest : String) :
    Except String (Sys × List Ev) :=
  if plan.readFail then rollbackStep plan S path dest []
  else
    match readBytes S.fs path with
    | none => rollbackStep plan S path dest []
    | some data =>
      let S1 : Sys := { S with ram := (S.ram.add env.availRam path data).2 }
      if plan.mkdirFail then rollbackStep plan S1 path dest [Ev.readSlow]
      else
        match plan.copyFail with
        | some leftover =>
          rollbackStep plan
            (match leftover with
              | none => S1
              | some c => { S1 with fs := odSet S1.fs dest (FsEntry.file c 0) })
            path dest [Ev.readSlow]
        | none =>
          let S2 : Sys := { S1 with
            fs := odSet S1.fs dest
              (FsEntry.file data ((statAtime S.fs path).getD 0)) }
          if plan.removeFail then
            rollbackStep plan S2 path dest [Ev.readSlow, Ev.copy]
          else
            let S3 : Sys := { S2 with fs := odErase S2.fs path }
            if plan.symlinkFail then
              rollbackStep plan S3 path dest [Ev.readSlow, Ev.copy, Ev.removeOrig]
            else
              Except.ok
                ({ S3 with
                    fs := odSet S3.fs path (FsEntry.link dest),
                    cached_files := odSet S3.cached_files path dest },
                  [Ev.readSlow, Ev.copy, Ev.removeOrig, Ev.symlink])

/-- `cache_file(file_path)`: serve from RAM when possible; else
rehydrate from a recorded cache path; else migrate after recomputing
the budget and checking (and, once, reclaiming) space.  Uncaught
exceptions — a failing read of the recorded cache path, a failing
`stat` of the origin, or an exception escaping `clean_cache` — are
`Except.error`. -/
def cache_file (env : Env) (plan : MigPlan) (S : Sys) (path : String) :
    Except String (Sys × List Ev) :=
  match S.ram.get path with
  | (some _, ram1) => Except.ok ({ S with ram := ram1 }, [Ev.ramHit])
  | (none, _) =>
    match alookup S.cached_files path with
    | some cache_dest =>
      match readBytes S.fs cache_dest with
      | none => Except.error "read from recorded cache path failed"
      | some data =>
        Except.ok ({ S with ram := (S.ram.add env.availRam path data).2 },
          [Ev.readFast])
    | none =>
      match statSize S.fs path with
      | none => Except.error "stat of origin failed"
      | some file_size =>
        match adjust_cache_size env plan.o S with
        | Except.error e => Except.error e
        | Except.ok S1 =>
          if has_space env.free env.total (get_cache_size env S1.fs)
              S1.cache_size_bytes file_size then
            migrate env plan S1 path (destOf env path)
          else
            match clean_cache env plan.o S1 with
            | Except.error e => Except.error e
            | Except.ok S2 =>
              if has_space env.free env.total (get_cache_size env S2.fs)
                  S2.cache_size_bytes file_size then
                migrate env plan S2 path (destOf env path)
              else Except.ok (S2, [])

/-- The external input of one Monitor tick: the `psutil` readings, plus
whether the disk-usage query itself raises, and the eviction oracle for
a `clean_cache` the tick may trigger. -/
structure Tick where
  env : Env
  usageFail : Bool
  o : CleanOracle

/-- One iteration of the `monitor_system` loop body:
`adjust_cache_size` then `ram_cache.update_max_size()`.  There is no
exception handler in the loop, so any failure propagates. -/
def monitor_tick (S : Sys) (t : Tick) : Except String Sys :=
  if t.usageFail then Except.error "disk usage query failed"
  else
    match adjust_cache_size t.env t.o S with
    | Except.error e => Except.error e
    | Except.ok S1 =>
        Except.ok { S1 with ram := S1.ram.update_max_size t.env.availRam }

/-- The `monitor_system` loop run over a finite schedule of tick
inputs; returns the final state and the number of ticks completed, or
the error that escaped the loop. -/
def monitor_ticks (S : Sys) : List Tick → Except String (Sys × Nat)
  | [] => Except.ok (S, 0)
  | t :: rest =>
    match monitor_tick S t with
    | Except.error e => Except.error e
    | Except.ok S1 =>
      match monitor_ticks S1 rest with
      | Except.error e => Except.error e
      | Except.ok (S2, n) => Except.ok (S2, n + 1)

/-! Helper lemmas for the system-level proofs. -/

theorem odSet_of_none {α : Type} {l : List (String × α)} {p : String} {d : α}
    (h : alookup l p = none) : odSet l p d = l ++ [(p, d)] := by
  induction l with
  | nil => rfl
  | cons x t ih =>
      rw [alookup] at h
      by_cases hx : x.1 = p
      · simp [hx] at h
      · rw [odSet, if_neg hx, List.cons_append, ih (by simpa [hx] using h)]

theorem filter_key_nil {α : Type} {l : List (String × α)} {k : String}
    (h : alookup l k = none) :
    (l.filter fun kv => kv.1 = k) = [] := by
  induction l with
  | nil => rfl
  | cons x t ih =>
      rw [alookup] at h
      by_cases hx : x.1 = k
      · simp [hx] at h
      · rw [List.filter_cons, if_neg (by simp [hx])]
        exact ih (by simpa [hx] using h)

theorem alookup_append_isSome {α : Type} {l2 : List (String × α)} {k : String}
    (l1 : List (String × α)) (h : (alookup l2 k).isSome = true) :
    (alookup (l1 ++ l2) k).isSome = true := by
  induction l1 with
  | nil => simpa using h
  | cons x t ih =>
      rw [List.cons_append, alookup]
      by_cases hx : x.1 = k
      · simp [hx]
      · simpa [hx] using ih

theorem add_success (s : RAMCache) (m : Nat) (p : String) (d : Bytes)
    (h : d.length ≤ m) :
    s.add m p d =
      (true, ⟨odErase ((s.update_max_size m).trim_cache).cache p ++ [(p, d)], m⟩) := by
  have hmax : (s.update_max_size m).max_size = m := rfl
  have hnot : ¬ d.length > (s.update_max_size m).max_size := by
    rw [hmax]; omega
  rw [RAMCache.add]
  simp only [hnot, if_false]
  rw [odMove_odSet]
  rfl

theorem get_miss {s : RAMCache} {p : String}
    (h : alookup s.cache p = none) : s.get p = (none, s) := by
  rw [RAMCache.get, h]

theorem get_hit {s : RAMCache} {p : String} {v : Bytes}
    (h : alookup s.cache p = some v) :
    s.get p = (some v, ⟨odMove p s.cache, s.max_size⟩) := by
  rw [RAMCache.get, h]

/-- `cache_file` on a RAM hit: no I/O at all, only the recency update. -/
theorem cache_file_ram_hit (env : Env) (plan : MigPlan) (S : Sys)
    (path : String) (v : Bytes)
    (h : alookup S.ram.cache path = some v) :
    cache_file env plan S path
      = Except.ok ({ S with ram := ⟨odMove path S.ram.cache, S.ram.max_size⟩ },
          [Ev.ramHit]) := by
  rw [cache_file]
  split
  · next v' ram' heq =>
      rw [get_hit h] at heq
      injection heq with h1 h2
      rw [h2]
  · next heq =>
      rw [get_hit h] at heq
      injection heq with h1 h2
      cases h1

/-- `cache_file` on a RAM miss with a recorded index entry: read the
recorded cache path and opportunistically load the RAM tier. -/
theorem cache_file_rehydrate (env : Env) (plan : MigPlan) (S : Sys)
    (path dest : String) (data : Bytes)
    (hram : alookup S.ram.cache path = none)
    (hidx : alookup S.cached_files path = some dest)
    (hread : readBytes S.fs dest = some data) :
    cache_file env plan S path
      = Except.ok ({ S with ram := (S.ram.add env.availRam path data).2 },
          [Ev.readFast]) := by
  rw [cache_file]
  split
  · next v' ram' heq =>
      rw [get_miss hram] at heq
      injection heq with h1 h2
      cases h1
  · next heq =>
      rw [hidx]
      dsimp only
      rw [hread]

/-- `cache_file` on a first migration with enough space: the call is
the migration step. -/
theorem cache_file_first_migration (env : Env) (plan : MigPlan) (S : Sys)
    (path : String) (file_size : Nat)
    (hram : alookup S.ram.cache path = none)
    (hidx : alookup S.cached_files path = none)
    (hstat : statSize S.fs path = some file_size)
    (hadj : adjust_cache_size env plan.o S = Except.ok S)
    (hspace : has_space env.free env.total (get_cache_size env S.fs)
        S.cache_size_bytes file_size = true) :
    cache_file env plan S path = migrate env plan S path (destOf env path) := by
  rw [cache_file]
  split
  · next v' ram' heq =>
      rw [get_miss hram] at heq
      injection heq with h1 h2
      cases h1
  · next heq =>
      rw [hidx, hstat, hadj]
      dsimp only
      rw [if_pos hspace]

/-- A fully successful migration: origin read, RAM add attempted, copy
with preserved access time, origin deleted, redirect created, index
entry recorded. -/
theorem migrate_success (env : Env) (plan : MigPlan) (S : Sys)
    (path dest : String) (data : Bytes) (a : Nat)
    (hR : plan.readFail = false) (hM : plan.mkdirFail = false)
    (hC : plan.copyFail = none) (hD : plan.removeFail = false)
    (hSy : plan.symlinkFail = false)
    (hfile : alookup S.fs path = some (FsEntry.file data a)) :
    migrate env plan S path dest
      = Except.ok
          ({ S with
              ram := (S.ram.add env.availRam path data).2,
              fs := odSet
                (odErase (odSet S.fs dest (FsEntry.file data a)) path) path
                (FsEntry.link dest),
              cached_files := odSet S.cached_files path dest },
            [Ev.readSlow, Ev.copy, Ev.removeOrig, Ev.symlink]) := by
  have hread : readBytes S.fs path = some data := by rw [readBytes, hfile]
  have hatime : statAtime S.fs path = some a := by rw [statAtime, hfile]
  rw [migrate, if_neg (by simp [hR])]
  rw [hread]
  dsimp only
  rw [if_neg (by simp [hM]), hC]
  dsimp only
  rw [hatime]
  rw [if_neg (by simp [hD]), if_neg (by simp [hSy])]
  rfl

/-- `adjust_cache_size` is a no-op when the recomputed budget is within
1 GiB of the current one. -/
theorem adjust_noop (env : Env) (o : CleanOracle) (S : Sys)
    (h : ((adjust_size env.free env.total S.cache_percent S.min_cache_bytes
        S.max_cache_bytes : ℤ) - (S.cache_size_bytes : ℤ)).natAbs ≤ 1024 ^ 3) :
    adjust_cache_size env o S = Except.ok S := by
  rw [adjust_cache_size]
  rw [if_neg (by omega)]

/-- The oracle under which no eviction-time operation fails. -/
def o0 : CleanOracle := ⟨fun _ => false, fun _ => false, fun _ => false⟩

/-- A concrete environment: fast root `C/`, slow root `D/`, 1000 of
10000 bytes free on the fast disk, 100 bytes of RAM capacity. -/
def env7 : Env := ⟨"C/", "D/", 1000, 10000, 100⟩

/-- With 1000 bytes free of 10000 (no disk pressure), percent 1/2 and
bounds [0, 1000000], the recomputed budget is 500. -/
theorem adjust_size_env7 : adjust_size 1000 10000 (1 / 2) 0 1000000 = 500 := by
  have hp : proposed_size 1000 10000 (1 / 2) = 500 := by
    rw [proposed_size, if_neg (by norm_num)]
    rw [pyInt, if_pos (by norm_num)]
    have h5 : ((1000 : ℕ) : ℚ) * (1 / 2) = ((500 : ℤ) : ℚ) := by norm_num
    rw [h5, Int.floor_intCast]
  rw [adjust_size, hp, clamp_size]
  decide

/-- A concrete pre-migration state for `env7`: one 3-byte file on slow
storage, empty RAM tier and index, budget 500 matching the readings. -/
def S7 : Sys :=
  ⟨⟨[], 100⟩, [], [("D/a", FsEntry.file [1, 2, 3] 0)], 500, 1 / 2, 0, 1000000⟩

/-- The migration plan in which the copy fails after writing only the
first byte to the destination, everything else succeeding. -/
def plan7 : MigPlan := ⟨false, false, some (some [1]), false, false, false, o0⟩

/-- C7 failing input: when the copy fails leaving a partial file at the
destination, the `except` handler moves that partial file back OVER the
intact original, so the origin's content is lost (it becomes the 1-byte
partial copy instead of the 3-byte original).  The call itself returns
normally and records no index entry. -/
theorem rollback_overwrites_origin :
    ∃ S', cache_file env7 plan7 S7 "D/a"
        = Except.ok (S', [Ev.readSlow, Ev.rollback])
      ∧ alookup S7.fs "D/a" = some (FsEntry.file [1, 2, 3] 0)
      ∧ alookup S'.fs "D/a" = some (FsEntry.file [1] 0)
      ∧ alookup S'.cached_files "D/a" = none := by
  have hstat : statSize S7.fs "D/a" = some 3 := rfl
  have hadj : adjust_cache_size env7 plan7.o S7 = Except.ok S7 := by
    refine adjust_noop env7 plan7.o S7 ?_
    show ((adjust_size 1000 10000 (1 / 2) 0 1000000 : ℤ)
      - ((500 : ℕ) : ℤ)).natAbs ≤ 1024 ^ 3
    rw [adjust_size_env7]
    decide
  have husage : get_cache_size env7 S7.fs = 0 := rfl
  have hspace : has_space env7.free env7.total (get_cache_size env7 S7.fs)
      S7.cache_size_bytes 3 = true := by
    rw [husage]
    show has_space 1000 10000 0 500 3 = true
    simp only [has_space]
    norm_num
  have h1 : cache_file env7 plan7 S7 "D/a"
      = migrate env7 plan7 S7 "D/a" (destOf env7 "D/a") :=
    cache_file_first_migration env7 plan7 S7 "D/a" 3 rfl rfl hstat hadj hspace
  rw [h1]
  exact ⟨_, rfl, rfl, rfl, rfl⟩

/-- C6: under a successful first migration (origin present on slow
storage, no recorded entry, no RAM hit, enough space, no I/O failure),
calling `cache_file` twice on the same path performs exactly one copy
operation and yields exactly one index entry; the second call is a RAM
hit that performs no copy and touches no storage at all, and leaves the
index unchanged. -/
theorem cache_file_idempotent (env : Env) (plan : MigPlan) (S : Sys)
    (path : String) (data : Bytes) (a : Nat)
    (hR : plan.readFail = false) (hM : plan.mkdirFail = false)
    (hC : plan.copyFail = none) (hD : plan.removeFail = false)
    (hSy : plan.symlinkFail = false)
    (hram : alookup S.ram.cache path = none)
    (hidx : alookup S.cached_files path = none)
    (hfile : alookup S.fs path = some (FsEntry.file data a))
    (hfit : data.length ≤ env.availRam)
    (hadj : adjust_cache_size env plan.o S = Except.ok S)
    (hspace : has_space env.free env.total (get_cache_size env S.fs)
        S.cache_size_bytes data.length = true) :
    ∃ S1 S2 ev2,
      cache_file env plan S path
        = Except.ok (S1, [Ev.readSlow, Ev.copy, Ev.removeOrig, Ev.symlink])
      ∧ countCopies [Ev.readSlow, Ev.copy, Ev.removeOrig, Ev.symlink] = 1
      ∧ (S1.cached_files.filter fun kv => kv.1 = path).length = 1
      ∧ cache_file env plan S1 path = Except.ok (S2, ev2)
      ∧ countCopies ev2 = 0
      ∧ (∀ e ∈ ev2, touchesSlow e = false)
      ∧ S2.cached_files = S1.cached_files := by
  have hstat : statSize S.fs path = some data.length := by
    rw [statSize, readBytes, hfile]
    rfl
  have hcall1 : cache_file env plan S path
      = migrate env plan S path (destOf env path) :=
    cache_file_first_migration env plan S path data.length
      hram hidx hstat hadj hspace
  have hmig := migrate_success env plan S path (destOf env path) data a
    hR hM hC hD hSy hfile
  have hcount : ((odSet S.cached_files path (destOf env path)).filter
      fun kv => kv.1 = path).length = 1 := by
    rw [odSet_of_none hidx, List.filter_append, filter_key_nil hidx]
    simp
  have hcache : ((S.ram.add env.availRam path data).2).cache
      = odErase ((S.ram.update_max_size env.availRam).trim_cache).cache path
          ++ [(path, data)] := by
    rw [add_success S.ram env.availRam path data hfit]
  have hsome : (alookup ((S.ram.add env.availRam path data).2).cache
      path).isSome = true := by
    rw [hcache]
    exact alookup_append_isSome _ (by simp [alookup])
  obtain ⟨v, hv⟩ := Option.isSome_iff_exists.mp hsome
  have hcall2 := cache_file_ram_hit env plan
    ({ S with
        ram := (S.ram.add env.availRam path data).2,
        fs := odSet (odErase (odSet S.fs (destOf env path)
          (FsEntry.file data a)) path) path (FsEntry.link (destOf env path)),
        cached_files := odSet S.cached_files path (destOf env path) })
    path v hv
  exact ⟨_, _, [Ev.ramHit], hcall1.trans hmig, rfl, hcount, hcall2, rfl,
    by decide, rfl⟩

/-- The all-success migration plan. -/
def plan6 : MigPlan := ⟨false, false, none, false, false, false, o0⟩

/-- A concrete pre-migration state like `S7` but for origin `D/b`. -/
def S6 : Sys :=
  ⟨⟨[], 100⟩, [], [("D/b", FsEntry.file [1, 2, 3] 0)], 500, 1 / 2, 0, 1000000⟩

/-- C6 witness for the hypotheses of `cache_file_idempotent`. -/
theorem cache_file_idempotent_witness :
    ∃ S1 S2 ev2,
      cache_file env7 plan6 S6 "D/b"
        = Except.ok (S1, [Ev.readSlow, Ev.copy, Ev.removeOrig, Ev.symlink])
      ∧ countCopies [Ev.readSlow, Ev.copy, Ev.removeOrig, Ev.symlink] = 1
      ∧ (S1.cached_files.filter fun kv => kv.1 = "D/b").length = 1
      ∧ cache_file env7 plan6 S1 "D/b" = Except.ok (S2, ev2)
      ∧ countCopies ev2 = 0
      ∧ (∀ e ∈ ev2, touchesSlow e = false)
      ∧ S2.cached_files = S1.cached_files := by
  refine cache_file_idempotent env7 plan6 S6 "D/b" [1, 2, 3] 0
    rfl rfl rfl rfl rfl rfl rfl rfl (by decide) ?_ ?_
  · refine adjust_noop env7 plan6.o S6 ?_
    show ((adjust_size 1000 10000 (1 / 2) 0 1000000 : ℤ)
      - ((500 : ℕ) : ℤ)).natAbs ≤ 1024 ^ 3
    rw [adjust_size_env7]
    decide
  · have h0 : get_cache_size env7 S6.fs = 0 := rfl
    rw [h0]
    show has_space 1000 10000 0 500 3 = true
    simp only [has_space]
    norm_num

theorem odErase_length_succ {α : Type} {l : List (String × α)} {k : String}
    (h : k ∈ l.map Prod.fst) : (odErase l k).length + 1 = l.length := by
  induction l with
  | nil => simp at h
  | cons x t ih =>
      by_cases hx : x.1 = k
      · simp [odErase, hx]
      · rw [List.map_cons, List.mem_cons] at h
        rcases h with he | hm
        · exact absurd he.symm hx
        · rw [odErase, if_neg hx]
          simp only [List.length_cons]
          have := ih hm
          omega

/-- C8: one iteration of the eviction loop in which the removal or the
move-back of the selected oldest entry fails with a filesystem error:
the entry is nonetheless dropped from the index, the loop continues
from the strictly smaller index, and the index size decreases by
exactly one — which is what makes the loop terminate (`clean_go` is
total, by well-founded recursion on the index size). -/
theorem clean_go_failure_progress (env : Env) (o : CleanOracle) (S : Sys)
    (cur : Nat) (oldest : String)
    (hnd : (S.cached_files.map Prod.fst).Nodup)
    (hg : cur > S.cache_size_bytes) (hne : S.cached_files ≠ [])
    (hsel : selectOldest S.fs o S.cached_files = some oldest) :
    ((o.unlinkFail oldest || !(fsExists S.fs oldest)) = true →
      clean_go env o S cur
        = clean_go env o
            { S with cached_files := odErase S.cached_files oldest } cur
      ∧ oldest ∉ ((odErase S.cached_files oldest).map Prod.fst)
      ∧ (odErase S.cached_files oldest).length + 1 = S.cached_files.length)
    ∧ ((o.unlinkFail oldest || !(fsExists S.fs oldest)) = false →
      (o.moveFail oldest
          || !(fsExists (odErase S.fs oldest)
                ((alookup S.cached_files oldest).getD ""))) = true →
      clean_go env o S cur
        = clean_go env o
            { S with
              fs := odErase S.fs oldest,
              cached_files := odErase S.cached_files oldest } cur
      ∧ oldest ∉ ((odErase S.cached_files oldest).map Prod.fst)
      ∧ (odErase S.cached_files oldest).length + 1 = S.cached_files.length) := by
  have hmem : oldest ∈ S.cached_files.map Prod.fst := selectOldest_mem hsel
  have hnotmem := not_mem_keys_odErase (l := S.cached_files) (k := oldest) hnd
  have hlen := odErase_length_succ (l := S.cached_files) (k := oldest) hmem
  constructor
  · intro hf
    refine ⟨?_, hnotmem, hlen⟩
    rw [clean_go, if_pos ⟨hg, hne⟩]
    split
    · next heq => rw [hsel] at heq; cases heq
    · next x heq =>
        rw [hsel] at heq
        injection heq with hx
        subst hx
        rw [if_pos hf]
  · intro hf1 hf2
    refine ⟨?_, hnotmem, hlen⟩
    rw [clean_go, if_pos ⟨hg, hne⟩]
    split
    · next heq => rw [hsel] at heq; cases heq
    · next x heq =>
        rw [hsel] at heq
        injection heq with hx
        subst hx
        rw [if_neg (by simp [hf1]), if_pos hf2]

/-- An oracle under which every `os.unlink` fails. -/
def o8 : CleanOracle := ⟨fun _ => false, fun _ => true, fun _ => false⟩

/-- A state with one migrated file: the index records `D/a ↦ C/a`, the
origin holds the redirect and the cache path the content; the budget is
0 so the eviction loop is entered. -/
def S8 : Sys :=
  ⟨⟨[], 0⟩, [("D/a", "C/a")],
    [("D/a", FsEntry.link "C/a"), ("C/a", FsEntry.file [1] 5)], 0, 1 / 2, 0, 0⟩

/-- C8 witness for the hypotheses of `clean_go_failure_progress`. -/
theorem clean_go_failure_progress_witness :
    clean_go env7 o8 S8 1
      = clean_go env7 o8
          { S8 with cached_files := odErase S8.cached_files "D/a" } 1
    ∧ "D/a" ∉ ((odErase S8.cached_files "D/a").map Prod.fst)
    ∧ (odErase S8.cached_files "D/a").length + 1 = S8.cached_files.length :=
  (clean_go_failure_progress env7 o8 S8 1 "D/a" (by decide) (by decide)
    (by decide) rfl).1 rfl

/-- A Monitor tick whose disk-usage query raises. -/
def tickBad : Tick := ⟨env7, true, o0⟩

/-- A Monitor tick in which nothing fails. -/
def tickGood : Tick := ⟨env7, false, o0⟩

/-- C9 counterexample: a failure in the first tick's budget
recomputation terminates the Monitor loop — the following (perfectly
healthy) tick is never processed, where the claim says the loop
proceeds to the next tick. -/
theorem monitor_failure_cex :
    monitor_ticks S7 [tickBad, tickGood]
      = Except.error "disk usage query failed" := rfl

/-- C9 (amended): a failure raised inside a Monitor tick is not caught
anywhere in `monitor_system`: it propagates and terminates the
Monitor's own loop, and no later tick runs.  (Only the thread dies; the
process stays alive through the main loop, which is outside this
function.) -/
theorem monitor_tick_failure_stops_loop (S : Sys) (t : Tick)
    (rest : List Tick) (e : String)
    (h : monitor_tick S t = Except.error e) :
    monitor_ticks S (t :: rest) = Except.error e := by
  rw [monitor_ticks, h]

/-- C9 witness for the hypothesis of `monitor_tick_failure_stops_loop`. -/
theorem monitor_tick_failure_stops_loop_witness :
    monitor_ticks S7 [tickBad] = Except.error "disk usage query failed" :=
  monitor_tick_failure_stops_loop S7 tickBad [] "disk usage query failed" rfl

/-- C5 witness: the amended characterization evaluated at a concrete
input. -/
theorem has_space_amended_witness :
    has_space 8 10 0 9 1 = true ↔
      (((8 : ℕ) : ℚ) - ((1 : ℕ) : ℚ) > ((10 : ℕ) : ℚ) * (5 / 100)
        ∧ 0 + 1 ≤ 9) :=
  has_space_amended 8 10 0 9 1
